import Mathlib

/-!
Verification of the box-geometry, anchor-assignment and non-maximum-suppression
layer of the YOLOv3 repository (src/utils.py), shallowly embedded over ℚ.

Coordinates, scores and tensor values are modelled as rationals; numpy / torch
assertions and indexing errors are modelled with Except; the dense training
target is modelled as a total function from indices to values.
-/

namespace YOLOv3

/-- A corner-form box (x1, y1, x2, y2), as consumed by iou and nms. -/
structure Box where
  x1 : ℚ
  y1 : ℚ
  x2 : ℚ
  y2 : ℚ
deriving DecidableEq

instance : Inhabited Box := ⟨⟨0, 0, 0, 0⟩⟩

/-- torch .clamp(min=0). -/
def clamp0 (q : ℚ) : ℚ := max q 0

/-- Intersection area of two corner-form boxes (utils.py lines 35-40 and 154-158):
width and height of the overlap, clamped at 0, multiplied. -/
def insArea (b1 b2 : Box) : ℚ :=
  clamp0 (min b1.x2 b2.x2 - max b1.x1 b2.x1) * clamp0 (min b1.y2 b2.y2 - max b1.y1 b2.y1)

/-- The denominator of the generic iou (utils.py lines 41-45): signed areas
(x1-x2)(y1-y2) summed, minus the intersection.  No epsilon is added. -/
def iouDen (b1 b2 : Box) : ℚ :=
  (b1.x1 - b1.x2) * (b1.y1 - b1.y2) + (b2.x1 - b2.x2) * (b2.y1 - b2.y2) - insArea b1 b2

/-- The generic iou of utils.py lines 31-48. -/
def iou (b1 b2 : Box) : ℚ := insArea b1 b2 / iouDen b1 b2

/-- Box area as computed in nms (utils.py line 137). -/
def area (b : Box) : ℚ := (b.x2 - b.x1) * (b.y2 - b.y1)

/-- The pairwise iou computed inside the nms loop (utils.py lines 154-159). -/
def pairIou (p q : Box) : ℚ := insArea p q / (area p + area q - insArea p q)

/-- Python int(): truncation toward zero of a rational. -/
def ratTrunc (q : ℚ) : ℤ := Int.tdiv q.num q.den

/-- The 1e-8 epsilon added to the anchor-assignment union (utils.py line 96). -/
def eps : ℚ := 1 / 100000000

/-- Anchor-assignment intersection (utils.py lines 89-90): elementwise min of the
two (w, h) pairs, coordinates multiplied. -/
def anchorIns (w h aw ah : ℚ) : ℚ := min w aw * min h ah

/-- Anchor-assignment union (utils.py lines 91-95). -/
def anchorUni (w h aw ah : ℚ) : ℚ := w * h + aw * ah - anchorIns w h aw ah

/-- Anchor-assignment iou denominator (utils.py line 96): union plus 1e-8. -/
def anchorIouDen (w h aw ah : ℚ) : ℚ := anchorUni w h aw ah + eps

/-- Anchor-assignment iou score (utils.py line 96). -/
def anchorIouScore (w h aw ah : ℚ) : ℚ := anchorIns w h aw ah / anchorIouDen w h aw ah

/-- Helper for np.argmax: first index of the maximum, scanning left to right. -/
def argmaxAux : List ℚ → ℕ → ℕ → ℚ → ℕ
  | [], _, bi, _ => bi
  | v :: vs, ci, bi, bv => if bv < v then argmaxAux vs (ci + 1) ci v else argmaxAux vs (ci + 1) bi bv

/-- np.argmax over a list of rationals (first occurrence of the maximum). -/
def argmaxQ : List ℚ → ℕ
  | [] => 0
  | v :: vs => argmaxAux vs 1 0 v

/-- The best anchor for a (w, h) pair (utils.py lines 88-97). -/
def bestAnchor (w h : ℚ) (anchors : List (ℚ × ℚ)) : ℕ :=
  argmaxQ (anchors.map (fun a => anchorIouScore w h a.1 a.2))

/-- numpy integer indexing into an axis of size n: in-range indices pass through,
negative indices down to -n wrap around, anything else is an IndexError. -/
def npIndex (i : ℤ) (n : ℕ) : Option ℕ :=
  if 0 ≤ i ∧ i < (n : ℤ) then some i.toNat
  else if -(n : ℤ) ≤ i ∧ i < 0 then some (i + n).toNat
  else none

/-- The dense training target matching_true_boxes, as a total map
(batch, row, col, anchor, channel) → value. -/
def Target : Type := ℕ → ℕ → ℕ → ℕ → ℕ → ℚ

/-- np.zeros: the all-zero target. -/
def initTarget : Target := fun _ _ _ _ _ => 0

/-- The writes one ground-truth box performs (utils.py lines 99-107): channels
0-4 are overwritten with the cell-relative center, raw (w, h) and objectness 1;
each class channel in cls is set to 1; every other entry keeps its prior value. -/
def writeBox (t : Target) (b i j a : ℕ) (c0 c1 c2 c3 : ℚ) (cls : List ℕ) : Target :=
  fun b' i' j' a' c =>
    if b' = b ∧ i' = i ∧ j' = j ∧ a' = a then
      if c = 0 then c0
      else if c = 1 then c1
      else if c = 2 then c2
      else if c = 3 then c3
      else if c = 4 then 1
      else if c ∈ cls then 1
      else t b' i' j' a' c
    else t b' i' j' a' c

/-- Resolve the class fields box[4:] to channel indices int(k)+5 (utils.py
lines 106-107), with numpy index semantics on the channel axis of size 5+ncls. -/
def resolveCls (ncls : ℕ) : List ℚ → Option (List ℕ)
  | [] => some []
  | k :: ks =>
    match npIndex (ratTrunc k + 5) (5 + ncls) with
    | none => none
    | some c => (resolveCls ncls ks).map (fun cs => c :: cs)

/-- Row index of a label: its first coordinate scaled by H (utils.py line 83)
then truncated by int() (line 86). -/
def boxCellI (box : List ℚ) (H : ℕ) : ℤ := ratTrunc (box.getD 0 0 * H)

/-- Column index of a label: its second coordinate scaled by W (utils.py line 83)
then truncated by int() (line 87). -/
def boxCellJ (box : List ℚ) (W : ℕ) : ℤ := ratTrunc (box.getD 1 0 * W)

/-- Processing of one ground-truth box in preprocess_true_boxes (utils.py
lines 85-107).  A label with fewer than 4 fields is a fatal error (the reshape
at line 88 / assert at line 104); an empty anchor list makes np.argmax fail;
out-of-range cell or class indices are numpy IndexErrors. -/
def processBox (anchors : List (ℚ × ℚ)) (W H ncls b : ℕ) (t : Target) (box : List ℚ) :
    Except String Target :=
  if box.length < 4 then Except.error "malformed label: fewer than 4 fields"
  else if anchors = [] then Except.error "argmax over empty anchor sequence"
  else
    match npIndex (boxCellI box H) H, npIndex (boxCellJ box W) W with
    | some i, some j =>
      match resolveCls ncls (box.drop 4) with
      | some cls =>
        Except.ok (writeBox t b i j (bestAnchor (box.getD 2 0) (box.getD 3 0) anchors)
          (box.getD 0 0 * H / H) (box.getD 1 0 * W / W) (box.getD 2 0) (box.getD 3 0) cls)
      | none => Except.error "class channel out of range"
    | _, _ => Except.error "cell index out of range"

/-- The inner loop over the boxes of one image (utils.py line 85). -/
def processBoxes (anchors : List (ℚ × ℚ)) (W H ncls b : ℕ) :
    Target → List (List ℚ) → Except String Target
  | t, [] => Except.ok t
  | t, box :: rest =>
    match processBox anchors W H ncls b t box with
    | Except.ok t' => processBoxes anchors W H ncls b t' rest
    | Except.error e => Except.error e

/-- The outer loop over the batch (utils.py line 84). -/
def processAllBatches (anchors : List (ℚ × ℚ)) (W H ncls : ℕ) :
    Target → ℕ → List (List (List ℚ)) → Except String Target
  | t, _, [] => Except.ok t
  | t, b, img :: imgs =>
    match processBoxes anchors W H ncls b t img with
    | Except.ok t' => processAllBatches anchors W H ncls t' (b + 1) imgs
    | Except.error e => Except.error e

/-- preprocess_true_boxes (utils.py lines 77-110): grid_size is (W, H), the
target has shape [B, H, W, A, 5+ncls]. -/
def preprocess_true_boxes (labels : List (List (List ℚ))) (anchors : List (ℚ × ℚ))
    (W H ncls : ℕ) : Except String Target :=
  processAllBatches anchors W H ncls initTarget 0 labels

/-- Insert index i into an index list sorted by descending score. -/
def insertDesc (scores : List ℚ) (i : ℕ) : List ℕ → List ℕ
  | [] => [i]
  | j :: rest =>
    if scores.getD j 0 < scores.getD i 0 then i :: j :: rest
    else j :: insertDesc scores i rest

/-- torch.sort(scores, descending=True).indices (utils.py line 139). -/
def sortIdxDesc (scores : List ℚ) : List ℕ :=
  (List.range scores.length).foldr (insertDesc scores) []

/-- One suppression round (utils.py lines 154-161): the candidates kept are
those whose iou with the selected box is strictly below the threshold. -/
def nmsKeep (boxes : List Box) (thr : ℚ) (idx : ℕ) (rest : List ℕ) : List ℕ :=
  rest.filter (fun j => decide (pairIou (boxes.getD idx default) (boxes.getD j default) < thr))

/-- The nms while-loop (utils.py lines 145-166).  fuel bounds the recursion and
is never exhausted when it starts at the index-list length, since every round
consumes at least one index. -/
def nmsLoop (boxes : List Box) (thr : ℚ) (m : ℕ) : ℕ → List ℕ → ℕ → List ℕ
  | _, [], _ => []
  | 0, _ :: _, _ => []
  | fuel + 1, idx :: rest, flag =>
    if rest = [] then [idx]
    else if nmsKeep boxes thr idx rest = [] then [idx]
    else if m ≤ flag + 1 then [idx]
    else idx :: nmsLoop boxes thr m fuel (nmsKeep boxes thr idx rest) (flag + 1)

/-- nms (utils.py lines 127-168): asserts that lengths match and all areas are
positive, fast-path for empty input, otherwise the greedy loop on the indices
sorted by descending score; an unset max_output_size becomes N+1 (line 143). -/
def nms (boxes : List Box) (scores : List ℚ) (thr : ℚ) (maxOut : Option ℕ) :
    Except String (List ℕ) :=
  if boxes.length ≠ scores.length then Except.error "assert failed: lengths differ"
  else if scores = [] then Except.ok []
  else if ¬ (∀ b ∈ boxes, 0 < area b) then Except.error "assert failed: nonpositive area"
  else Except.ok (nmsLoop boxes thr (maxOut.getD (scores.length + 1))
    scores.length (sortIdxDesc scores) 0)

/-- The nms while-loop with the zero-survivors stall guard (utils.py
lines 163-164) removed; everything else is unchanged. -/
def nmsLoopNG (boxes : List Box) (thr : ℚ) (m : ℕ) : ℕ → List ℕ → ℕ → List ℕ
  | _, [], _ => []
  | 0, _ :: _, _ => []
  | fuel + 1, idx :: rest, flag =>
    if rest = [] then [idx]
    else if m ≤ flag + 1 then [idx]
    else idx :: nmsLoopNG boxes thr m fuel (nmsKeep boxes thr idx rest) (flag + 1)

/-- nms built on the guard-free loop. -/
def nmsNG (boxes : List Box) (scores : List ℚ) (thr : ℚ) (maxOut : Option ℕ) :
    Except String (List ℕ) :=
  if boxes.length ≠ scores.length then Except.error "assert failed: lengths differ"
  else if scores = [] then Except.ok []
  else if ¬ (∀ b ∈ boxes, 0 < area b) then Except.error "assert failed: nonpositive area"
  else Except.ok (nmsLoopNG boxes thr (maxOut.getD (scores.length + 1))
    scores.length (sortIdxDesc scores) 0)

/-! ## Box geometry: bounds of the generic iou -/

/-- The clamped overlap width (or height) is nonnegative. -/
theorem clamp0_nonneg (q : ℚ) : 0 ≤ clamp0 q := le_max_right q 0

/-- The intersection area is nonnegative. -/
theorem insArea_nonneg (p q : Box) : 0 ≤ insArea p q :=
  mul_nonneg (clamp0_nonneg _) (clamp0_nonneg _)

/-- For a box with nonnegative extents, the intersection with any box is at most
its own area. -/
theorem insArea_le_left (p q : Box) (hx : p.x1 ≤ p.x2) (hy : p.y1 ≤ p.y2) :
    insArea p q ≤ (p.x2 - p.x1) * (p.y2 - p.y1) := by
  have h1 : clamp0 (min p.x2 q.x2 - max p.x1 q.x1) ≤ p.x2 - p.x1 := by
    apply max_le _ (by linarith)
    have := min_le_left p.x2 q.x2
    have := le_max_left p.x1 q.x1
    linarith
  have h2 : clamp0 (min p.y2 q.y2 - max p.y1 q.y1) ≤ p.y2 - p.y1 := by
    apply max_le _ (by linarith)
    have := min_le_left p.y2 q.y2
    have := le_max_left p.y1 q.y1
    linarith
  exact mul_le_mul h1 h2 (clamp0_nonneg _) (by linarith)

/-- The intersection with any box is also at most the second box's area. -/
theorem insArea_le_right (p q : Box) (hx : q.x1 ≤ q.x2) (hy : q.y1 ≤ q.y2) :
    insArea p q ≤ (q.x2 - q.x1) * (q.y2 - q.y1) := by
  have h1 : clamp0 (min p.x2 q.x2 - max p.x1 q.x1) ≤ q.x2 - q.x1 := by
    apply max_le _ (by linarith)
    have := min_le_right p.x2 q.x2
    have := le_max_right p.x1 q.x1
    linarith
  have h2 : clamp0 (min p.y2 q.y2 - max p.y1 q.y1) ≤ q.y2 - q.y1 := by
    apply max_le _ (by linarith)
    have := min_le_right p.y2 q.y2
    have := le_max_right p.y1 q.y1
    linarith
  exact mul_le_mul h1 h2 (clamp0_nonneg _) (by linarith)

/-- The iou denominator written with positive areas. -/
theorem iouDen_eq (p q : Box) :
    iouDen p q = (p.x2 - p.x1) * (p.y2 - p.y1) + (q.x2 - q.x1) * (q.y2 - q.y1) - insArea p q := by
  unfold iouDen
  ring

/-- Claim C8: for every pair of corner-form boxes A and B, each with positive
area (x2 > x1 and y2 > y1), iou A B lies between 0 and 1 inclusive. -/
theorem iou_bounds (A B : Box) (hA1 : A.x1 < A.x2) (hA2 : A.y1 < A.y2)
    (hB1 : B.x1 < B.x2) (hB2 : B.y1 < B.y2) : 0 ≤ iou A B ∧ iou A B ≤ 1 := by
  have hins := insArea_nonneg A B
  have hiA := insArea_le_left A B (le_of_lt hA1) (le_of_lt hA2)
  have hiB := insArea_le_right A B (le_of_lt hB1) (le_of_lt hB2)
  have hApos : 0 < (A.x2 - A.x1) * (A.y2 - A.y1) := mul_pos (by linarith) (by linarith)
  have hBpos : 0 < (B.x2 - B.x1) * (B.y2 - B.y1) := mul_pos (by linarith) (by linarith)
  have hden : 0 < iouDen A B := by
    rw [iouDen_eq]
    linarith
  have hle : insArea A B ≤ iouDen A B := by
    rw [iouDen_eq]
    linarith
  unfold iou
  exact ⟨div_nonneg hins (le_of_lt hden), (div_le_one hden).mpr hle⟩

/-- Witness for C8 at the concrete boxes (0,0,10,10) and (5,5,15,15). -/
theorem iou_bounds_witness :
    0 ≤ iou ⟨0, 0, 10, 10⟩ ⟨5, 5, 15, 15⟩ ∧ iou ⟨0, 0, 10, 10⟩ ⟨5, 5, 15, 15⟩ ≤ 1 :=
  iou_bounds ⟨0, 0, 10, 10⟩ ⟨5, 5, 15, 15⟩ (by norm_num) (by norm_num) (by norm_num) (by norm_num)

/-- Claim C5: the generic iou has no epsilon guard, and at two coincident point
boxes its denominator is exactly zero, while the anchor-assignment iou divides
by the union plus 1e-8, which is strictly positive for all nonnegative widths
and heights. -/
theorem iou_epsilon_asymmetry :
    iouDen ⟨0, 0, 0, 0⟩ ⟨0, 0, 0, 0⟩ = 0 ∧
    ∀ w h aw ah : ℚ, 0 ≤ w → 0 ≤ h → 0 ≤ aw → 0 ≤ ah → 0 < anchorIouDen w h aw ah := by
  constructor
  · with_unfolding_all rfl
  · intro w h aw ah hw hh haw hah
    have h1 : anchorIns w h aw ah ≤ w * h :=
      mul_le_mul (min_le_left _ _) (min_le_left _ _) (le_min hh hah) hw
    have h2 : 0 ≤ aw * ah := mul_nonneg haw hah
    unfold anchorIouDen anchorUni eps
    linarith

/-- Witness for C5: concrete degenerate boxes, and concrete nonnegative widths
and heights for the guarded denominator. -/
theorem iou_epsilon_asymmetry_witness :
    iouDen ⟨0, 0, 0, 0⟩ ⟨0, 0, 0, 0⟩ = 0 ∧ 0 < anchorIouDen 0 0 0 0 :=
  ⟨iou_epsilon_asymmetry.1, iou_epsilon_asymmetry.2 0 0 0 0 le_rfl le_rfl le_rfl le_rfl⟩

/-! ## Suppressor: empty input -/

/-- Claim C9: nms on zero boxes and zero scores does not fail and returns the
empty index sequence, for every threshold and every max-output setting. -/
theorem nms_empty_ok (thr : ℚ) (maxOut : Option ℕ) : nms [] [] thr maxOut = Except.ok [] := rfl

/-! ## Anchor assigner: malformed labels are fatal -/

/-- A label with fewer than 4 fields makes processBox fail. -/
theorem processBox_short_err (anchors : List (ℚ × ℚ)) (W H ncls b : ℕ) (t : Target)
    (box : List ℚ) (hlen : box.length < 4) :
    processBox anchors W H ncls b t box = Except.error "malformed label: fewer than 4 fields" := by
  unfold processBox
  rw [if_pos hlen]

/-- If one of an image's labels has fewer than 4 fields, the per-image loop can
never succeed, whatever target state it starts from. -/
theorem processBoxes_short_not_ok (anchors : List (ℚ × ℚ)) (W H ncls b : ℕ) (box : List ℚ)
    (hlen : box.length < 4) :
    ∀ (boxesL : List (List ℚ)), box ∈ boxesL →
      ∀ (t T : Target), processBoxes anchors W H ncls b t boxesL ≠ Except.ok T := by
  intro boxesL
  induction boxesL with
  | nil => intro hmem; cases hmem
  | cons hd tl ih =>
    intro hmem t T
    rcases List.mem_cons.mp hmem with hh | hh
    · subst hh
      unfold processBoxes
      rw [processBox_short_err anchors W H ncls b t box hlen]
      simp
    · unfold processBoxes
      cases hpb : processBox anchors W H ncls b t hd with
      | error e => simp
      | ok t' => exact ih hh t' T

/-- If one of the batch's labels has fewer than 4 fields, the batch loop can
never succeed. -/
theorem processAllBatches_short_not_ok (anchors : List (ℚ × ℚ)) (W H ncls : ℕ)
    (img : List (List ℚ)) (box : List ℚ) (hbox : box ∈ img) (hlen : box.length < 4) :
    ∀ (labels : List (List (List ℚ))), img ∈ labels →
      ∀ (t : Target) (b : ℕ) (T : Target),
        processAllBatches anchors W H ncls t b labels ≠ Except.ok T := by
  intro labels
  induction labels with
  | nil => intro hmem; cases hmem
  | cons hd tl ih =>
    intro hmem t b T
    rcases List.mem_cons.mp hmem with hh | hh
    · subst hh
      unfold processAllBatches
      cases hpb : processBoxes anchors W H ncls b t img with
      | error e => simp
      | ok t' => exact absurd hpb (processBoxes_short_not_ok anchors W H ncls b box hlen img hbox t t')
    · unfold processAllBatches
      cases hpb : processBoxes anchors W H ncls b t hd with
      | error e => simp
      | ok t' => exact ih hh t' (b + 1) T

/-- Claim C6: an input containing a label with fewer than 4 numeric fields makes
preprocess_true_boxes fail with a fatal error; no training target — partial or
otherwise — is ever returned. -/
theorem malformed_label_fatal (labels : List (List (List ℚ))) (anchors : List (ℚ × ℚ))
    (W H ncls : ℕ) (img : List (List ℚ)) (box : List ℚ)
    (himg : img ∈ labels) (hbox : box ∈ img) (hlen : box.length < 4) :
    ∀ T, preprocess_true_boxes labels anchors W H ncls ≠ Except.ok T := by
  intro T
  exact processAllBatches_short_not_ok anchors W H ncls img box hbox hlen labels himg initTarget 0 T

/-- Witness for C6 at a concrete 3-field label. -/
theorem malformed_label_fatal_witness :
    ([(1:ℚ), 2, 3] : List ℚ).length < 4 ∧
    ∀ T, preprocess_true_boxes [[[(1:ℚ), 2, 3]]] [(1, 1)] 13 13 80 ≠ Except.ok T := by
  refine ⟨by decide, ?_⟩
  exact malformed_label_fatal [[[(1:ℚ), 2, 3]]] [(1, 1)] 13 13 80 [[(1:ℚ), 2, 3]] [(1:ℚ), 2, 3]
    (List.mem_singleton.mpr rfl) (List.mem_singleton.mpr rfl) (by decide)

/-! ## Anchor assigner: cell indexing and slot writes -/

/-- A valid label makes processBox succeed and perform exactly the writeBox
update at the cell and best anchor computed from the label. -/
theorem processBox_ok (anchors : List (ℚ × ℚ)) (W H ncls b : ℕ) (t : Target) (box : List ℚ)
    (i j : ℕ) (cls : List ℕ) (hlen : 4 ≤ box.length) (hanc : anchors ≠ [])
    (hi : npIndex (boxCellI box H) H = some i) (hj : npIndex (boxCellJ box W) W = some j)
    (hcls : resolveCls ncls (box.drop 4) = some cls) :
    processBox anchors W H ncls b t box =
      Except.ok (writeBox t b i j (bestAnchor (box.getD 2 0) (box.getD 3 0) anchors)
        (box.getD 0 0 * H / H) (box.getD 1 0 * W / W) (box.getD 2 0) (box.getD 3 0) cls) := by
  unfold processBox
  rw [if_neg (by omega), if_neg hanc, hi, hj, hcls]

/-- Evaluating writeBox on its own slot. -/
theorem writeBox_at_slot (t : Target) (b i j a : ℕ) (c0 c1 c2 c3 : ℚ) (cls : List ℕ) (c : ℕ) :
    writeBox t b i j a c0 c1 c2 c3 cls b i j a c =
      if c = 0 then c0
      else if c = 1 then c1
      else if c = 2 then c2
      else if c = 3 then c3
      else if c = 4 then 1
      else if c ∈ cls then 1
      else t b i j a c := by
  unfold writeBox
  rw [if_pos ⟨rfl, rfl, rfl, rfl⟩]

/-- Stepping the per-image loop over a successfully processed head box. -/
theorem processBoxes_cons_ok (anchors : List (ℚ × ℚ)) (W H ncls b : ℕ) (t t' : Target)
    (box : List ℚ) (rest : List (List ℚ))
    (h : processBox anchors W H ncls b t box = Except.ok t') :
    processBoxes anchors W H ncls b t (box :: rest) = processBoxes anchors W H ncls b t' rest := by
  simp only [processBoxes]
  rw [h]

/-- Stepping the batch loop over a successfully processed head image. -/
theorem processAllBatches_cons_ok (anchors : List (ℚ × ℚ)) (W H ncls : ℕ) (t t' : Target)
    (b : ℕ) (img : List (List ℚ)) (rest : List (List (List ℚ)))
    (h : processBoxes anchors W H ncls b t img = Except.ok t') :
    processAllBatches anchors W H ncls t b (img :: rest) =
      processAllBatches anchors W H ncls t' (b + 1) rest := by
  simp only [processAllBatches]
  rw [h]

/-- Claim C2: for a valid label, the slot receiving objectness 1 sits at the
cell obtained by scaling the first normalized center coordinate by H and the
second by W and truncating toward zero (ratTrunc), under numpy index
resolution; no rounding is involved. -/
theorem cell_index_trunc_assign (box : List ℚ) (anchors : List (ℚ × ℚ)) (W H ncls : ℕ)
    (i j : ℕ) (cls : List ℕ) (hlen : 4 ≤ box.length) (hanc : anchors ≠ [])
    (hi : npIndex (ratTrunc (box.getD 0 0 * H)) H = some i)
    (hj : npIndex (ratTrunc (box.getD 1 0 * W)) W = some j)
    (hcls : resolveCls ncls (box.drop 4) = some cls) :
    ∃ T, preprocess_true_boxes [[box]] anchors W H ncls = Except.ok T ∧
      T 0 i j (bestAnchor (box.getD 2 0) (box.getD 3 0) anchors) 4 = 1 := by
  have hpb := processBox_ok anchors W H ncls 0 initTarget box i j cls hlen hanc hi hj hcls
  refine ⟨writeBox initTarget 0 i j (bestAnchor (box.getD 2 0) (box.getD 3 0) anchors)
    (box.getD 0 0 * H / H) (box.getD 1 0 * W / W) (box.getD 2 0) (box.getD 3 0) cls, ?_, ?_⟩
  · unfold preprocess_true_boxes
    rw [processAllBatches_cons_ok anchors W H ncls initTarget _ 0 [box] []
      ((processBoxes_cons_ok anchors W H ncls 0 initTarget _ box [] hpb).trans rfl)]
    rfl
  · rw [writeBox_at_slot]
    norm_num

/-- Witness for C2: a label with normalized center (1/2, 1/2) on a 13-by-13 grid
is assigned to cell (6, 6), since int(1/2 times 13) = int(6.5) = 6. -/
theorem cell_index_trunc_assign_witness :
    npIndex (ratTrunc ((1:ℚ) / 2 * (13:ℕ))) 13 = some 6 ∧
    ∃ T, preprocess_true_boxes [[[(1:ℚ)/2, 1/2, 1/5, 1/5]]] [(1/5, 1/5)] 13 13 80 = Except.ok T ∧
      T 0 6 6 (bestAnchor ((([(1:ℚ)/2, 1/2, 1/5, 1/5] : List ℚ).getD 2 0))
        (([(1:ℚ)/2, 1/2, 1/5, 1/5] : List ℚ).getD 3 0) [(1/5, 1/5)]) 4 = 1 := by
  refine ⟨by with_unfolding_all rfl, ?_⟩
  exact cell_index_trunc_assign [(1:ℚ)/2, 1/2, 1/5, 1/5] [(1/5, 1/5)] 13 13 80 6 6 []
    (by decide) (by decide) (by with_unfolding_all rfl) (by with_unfolding_all rfl)
    (by with_unfolding_all rfl)

/-! ## Anchor assigner: slot collisions -/

/-- Claim C1 counterexample: two colliding ground-truth boxes with classes 0 and
1; in the full run the slot's channel for class 0 still holds 1, while the
last-processed box alone would have left it 0 — the earlier box leaves a trace. -/
theorem collision_class_channel_trace :
    (preprocess_true_boxes [[[1/2, 1/2, 1/5, 1/5, 0], [1/2, 1/2, 1/5, 1/5, 1]]]
        [(1/5, 1/5)] 2 2 2).map (fun t => t 0 1 1 0 5) = Except.ok 1 ∧
    (preprocess_true_boxes [[[1/2, 1/2, 1/5, 1/5, 1]]]
        [(1/5, 1/5)] 2 2 2).map (fun t => t 0 1 1 0 5) = Except.ok 0 := by
  constructor
  · with_unfolding_all rfl
  · with_unfolding_all rfl

/-- Claim C1 (amended): when two valid boxes of the same image collide on the
same (batch, cell, best-anchor) slot, the last-processed box overwrites
channels 0 to 4 (cell-relative center, raw width and height, objectness), so
those equal what it alone would have written; but class channels are only ever
set to 1, never cleared, so each class channel of the final slot is the maximum
(union) of what the two boxes alone would have written there. -/
theorem collision_slot_last_write (anchors : List (ℚ × ℚ)) (W H ncls : ℕ)
    (box1 box2 : List ℚ) (i j a : ℕ) (cls1 cls2 : List ℕ)
    (h1len : 4 ≤ box1.length) (h2len : 4 ≤ box2.length) (hanc : anchors ≠ [])
    (hi1 : npIndex (boxCellI box1 H) H = some i) (hj1 : npIndex (boxCellJ box1 W) W = some j)
    (hi2 : npIndex (boxCellI box2 H) H = some i) (hj2 : npIndex (boxCellJ box2 W) W = some j)
    (ha1 : bestAnchor (box1.getD 2 0) (box1.getD 3 0) anchors = a)
    (ha2 : bestAnchor (box2.getD 2 0) (box2.getD 3 0) anchors = a)
    (hc1 : resolveCls ncls (box1.drop 4) = some cls1)
    (hc2 : resolveCls ncls (box2.drop 4) = some cls2) :
    ∃ T T1 T2 : Target,
      preprocess_true_boxes [[box1, box2]] anchors W H ncls = Except.ok T ∧
      preprocess_true_boxes [[box1]] anchors W H ncls = Except.ok T1 ∧
      preprocess_true_boxes [[box2]] anchors W H ncls = Except.ok T2 ∧
      (∀ c, c < 5 → T 0 i j a c = T2 0 i j a c) ∧
      (∀ c, 5 ≤ c → T 0 i j a c = max (T1 0 i j a c) (T2 0 i j a c)) := by
  have e1 := processBox_ok anchors W H ncls 0 initTarget box1 i j cls1 h1len hanc hi1 hj1 hc1
  rw [ha1] at e1
  set T1 : Target := writeBox initTarget 0 i j a
    (box1.getD 0 0 * H / H) (box1.getD 1 0 * W / W) (box1.getD 2 0) (box1.getD 3 0) cls1 with hT1
  have e2 := processBox_ok anchors W H ncls 0 initTarget box2 i j cls2 h2len hanc hi2 hj2 hc2
  rw [ha2] at e2
  set T2 : Target := writeBox initTarget 0 i j a
    (box2.getD 0 0 * H / H) (box2.getD 1 0 * W / W) (box2.getD 2 0) (box2.getD 3 0) cls2 with hT2
  have e3 := processBox_ok anchors W H ncls 0 T1 box2 i j cls2 h2len hanc hi2 hj2 hc2
  rw [ha2] at e3
  set T : Target := writeBox T1 0 i j a
    (box2.getD 0 0 * H / H) (box2.getD 1 0 * W / W) (box2.getD 2 0) (box2.getD 3 0) cls2 with hT
  refine ⟨T, T1, T2, ?_, ?_, ?_, ?_, ?_⟩
  · unfold preprocess_true_boxes
    rw [processAllBatches_cons_ok anchors W H ncls initTarget _ 0 [box1, box2] []
      (((processBoxes_cons_ok anchors W H ncls 0 initTarget _ box1 [box2] e1).trans
        ((processBoxes_cons_ok anchors W H ncls 0 T1 _ box2 [] e3).trans rfl)))]
    rfl
  · unfold preprocess_true_boxes
    rw [processAllBatches_cons_ok anchors W H ncls initTarget _ 0 [box1] []
      ((processBoxes_cons_ok anchors W H ncls 0 initTarget _ box1 [] e1).trans rfl)]
    rfl
  · unfold preprocess_true_boxes
    rw [processAllBatches_cons_ok anchors W H ncls initTarget _ 0 [box2] []
      ((processBoxes_cons_ok anchors W H ncls 0 initTarget _ box2 [] e2).trans rfl)]
    rfl
  · intro c hc
    rw [hT, hT2, writeBox_at_slot, writeBox_at_slot]
    interval_cases c <;> rfl
  · intro c hc
    have hn0 : c ≠ 0 := by omega
    have hn1 : c ≠ 1 := by omega
    have hn2 : c ≠ 2 := by omega
    have hn3 : c ≠ 3 := by omega
    have hn4 : c ≠ 4 := by omega
    by_cases hm2 : c ∈ cls2 <;> by_cases hm1 : c ∈ cls1 <;>
      simp [hT, hT1, hT2, writeBox_at_slot, initTarget, hn0, hn1, hn2, hn3, hn4, hm1, hm2]

/-- Witness for C1 (amended) at the concrete colliding pair with classes 0
and 1 on a 2-by-2 grid with a single anchor. -/
theorem collision_slot_last_write_witness :
    ∃ T T1 T2 : Target,
      preprocess_true_boxes [[[1/2, 1/2, 1/5, 1/5, 0], [1/2, 1/2, 1/5, 1/5, 1]]]
        [(1/5, 1/5)] 2 2 2 = Except.ok T ∧
      preprocess_true_boxes [[[1/2, 1/2, 1/5, 1/5, 0]]] [(1/5, 1/5)] 2 2 2 = Except.ok T1 ∧
      preprocess_true_boxes [[[1/2, 1/2, 1/5, 1/5, 1]]] [(1/5, 1/5)] 2 2 2 = Except.ok T2 ∧
      (∀ c, c < 5 → T 0 1 1 0 c = T2 0 1 1 0 c) ∧
      (∀ c, 5 ≤ c → T 0 1 1 0 c = max (T1 0 1 1 0 c) (T2 0 1 1 0 c)) :=
  collision_slot_last_write [(1/5, 1/5)] 2 2 2 [1/2, 1/2, 1/5, 1/5, 0] [1/2, 1/2, 1/5, 1/5, 1]
    1 1 0 [5] [6] (by decide) (by decide) (by decide)
    (by with_unfolding_all rfl) (by with_unfolding_all rfl)
    (by with_unfolding_all rfl) (by with_unfolding_all rfl)
    (by with_unfolding_all rfl) (by with_unfolding_all rfl)
    (by with_unfolding_all rfl) (by with_unfolding_all rfl)

/-! ## Suppressor: loop lemmas -/

/-- Every index the nms loop outputs comes from its input index list. -/
theorem nmsLoop_mem (boxes : List Box) (thr : ℚ) (m : ℕ) :
    ∀ (fuel : ℕ) (ind : List ℕ) (flag x : ℕ), x ∈ nmsLoop boxes thr m fuel ind flag → x ∈ ind := by
  intro fuel
  induction fuel with
  | zero =>
    intro ind flag x hx
    cases ind with
    | nil => cases hx
    | cons idx rest => cases hx
  | succ n ih =>
    intro ind flag x hx
    cases ind with
    | nil => cases hx
    | cons idx rest =>
      simp only [nmsLoop] at hx
      split_ifs at hx with h1 h2 h3
      · rw [List.mem_singleton] at hx
        exact hx ▸ List.mem_cons_self idx rest
      · rw [List.mem_singleton] at hx
        exact hx ▸ List.mem_cons_self idx rest
      · rw [List.mem_singleton] at hx
        exact hx ▸ List.mem_cons_self idx rest
      · rcases List.mem_cons.mp hx with hh | hh
        · exact hh ▸ List.mem_cons_self idx rest
        · exact List.mem_cons_of_mem idx (List.mem_of_mem_filter (ih _ _ _ hh))

/-- The nms loop output is pairwise below-threshold: every later selection
survived the keep-filter of every earlier one. -/
theorem nmsLoop_pairwise (boxes : List Box) (thr : ℚ) (m : ℕ) :
    ∀ (fuel : ℕ) (ind : List ℕ) (flag : ℕ),
      (nmsLoop boxes thr m fuel ind flag).Pairwise
        (fun x y => pairIou (boxes.getD x default) (boxes.getD y default) < thr) := by
  intro fuel
  induction fuel with
  | zero =>
    intro ind flag
    cases ind with
    | nil => simp [nmsLoop]
    | cons idx rest => simp [nmsLoop]
  | succ n ih =>
    intro ind flag
    cases ind with
    | nil => simp [nmsLoop]
    | cons idx rest =>
      simp only [nmsLoop]
      split_ifs with h1 h2 h3
      · simp
      · simp
      · simp
      · refine List.Pairwise.cons ?_ (ih _ _)
        intro y hy
        have hyk := nmsLoop_mem boxes thr m n _ _ y hy
        unfold nmsKeep at hyk
        have hdec := List.of_mem_filter hyk
        simpa using hdec

/-- The nms loop never outputs more indices than it was given. -/
theorem nmsLoop_length_le (boxes : List Box) (thr : ℚ) (m : ℕ) :
    ∀ (fuel : ℕ) (ind : List ℕ) (flag : ℕ),
      (nmsLoop boxes thr m fuel ind flag).length ≤ ind.length := by
  intro fuel
  induction fuel with
  | zero =>
    intro ind flag
    cases ind with
    | nil => simp [nmsLoop]
    | cons idx rest => simp [nmsLoop]
  | succ n ih =>
    intro ind flag
    cases ind with
    | nil => simp [nmsLoop]
    | cons idx rest =>
      simp only [nmsLoop]
      split_ifs with h1 h2 h3
      · simp
      · simp
      · simp
      · have hk : (nmsKeep boxes thr idx rest).length ≤ rest.length := List.length_filter_le _ _
        have := ih (nmsKeep boxes thr idx rest) (flag + 1)
        simp only [List.length_cons]
        omega

/-- With the output budget m still open, the nms loop outputs at most m - flag
further indices: flag counts selections already made ahead of the budget check. -/
theorem nmsLoop_length_le_budget (boxes : List Box) (thr : ℚ) (m : ℕ) :
    ∀ (fuel : ℕ) (ind : List ℕ) (flag : ℕ), flag < m →
      (nmsLoop boxes thr m fuel ind flag).length ≤ m - flag := by
  intro fuel
  induction fuel with
  | zero =>
    intro ind flag hf
    cases ind with
    | nil => simp [nmsLoop]
    | cons idx rest => simp [nmsLoop]
  | succ n ih =>
    intro ind flag hf
    cases ind with
    | nil => simp [nmsLoop]
    | cons idx rest =>
      simp only [nmsLoop]
      split_ifs with h1 h2 h3
      · simp only [List.length_singleton]
        omega
      · simp only [List.length_singleton]
        omega
      · simp only [List.length_singleton]
        omega
      · have hf' : flag + 1 < m := by omega
        have := ih (nmsKeep boxes thr idx rest) (flag + 1) hf'
        simp only [List.length_cons]
        omega

/-- Inserting into the descending-sorted index list adds one element. -/
theorem insertDesc_length (scores : List ℚ) (i : ℕ) :
    ∀ l : List ℕ, (insertDesc scores i l).length = l.length + 1 := by
  intro l
  induction l with
  | nil => rfl
  | cons j rest ih =>
    simp only [insertDesc]
    split_ifs
    · simp
    · simp [ih]

/-- The descending sort is a permutation in length of the score list. -/
theorem sortIdxDesc_length (scores : List ℚ) : (sortIdxDesc scores).length = scores.length := by
  have haux : ∀ l : List ℕ, (l.foldr (insertDesc scores) []).length = l.length := by
    intro l
    induction l with
    | nil => rfl
    | cons a l ih => simp [List.foldr, insertDesc_length, ih]
  unfold sortIdxDesc
  rw [haux, List.length_range]

/-! ## Suppressor: the stall guard is redundant -/

/-- The guard-free loop computes exactly what the guarded loop computes. -/
theorem nmsLoopNG_eq (boxes : List Box) (thr : ℚ) (m : ℕ) :
    ∀ (fuel : ℕ) (ind : List ℕ) (flag : ℕ),
      nmsLoopNG boxes thr m fuel ind flag = nmsLoop boxes thr m fuel ind flag := by
  intro fuel
  induction fuel with
  | zero =>
    intro ind flag
    cases ind with
    | nil => rfl
    | cons idx rest => rfl
  | succ n ih =>
    intro ind flag
    cases ind with
    | nil => rfl
    | cons idx rest =>
      by_cases h1 : rest = []
      · simp [nmsLoop, nmsLoopNG, h1]
      · by_cases h2 : nmsKeep boxes thr idx rest = []
        · by_cases h3 : m ≤ flag + 1
          · simp [nmsLoop, nmsLoopNG, h1, h2, h3]
          · simp [nmsLoop, nmsLoopNG, h1, h2, h3, ih]
        · by_cases h3 : m ≤ flag + 1
          · simp [nmsLoop, nmsLoopNG, h1, h2, h3]
          · simp [nmsLoop, nmsLoopNG, h1, h2, h3, ih]

/-- Claim C4: the early-exit branch taken when the keep-mask has zero survivors
is redundant: nms with that branch removed returns the same selected-index
sequence as the original on every input, because a zero-survivor round leaves
an empty remaining index set and the loop terminates anyway. -/
theorem nms_stall_guard_redundant (boxes : List Box) (scores : List ℚ) (thr : ℚ)
    (maxOut : Option ℕ) : nmsNG boxes scores thr maxOut = nms boxes scores thr maxOut := by
  unfold nms nmsNG
  simp only [nmsLoopNG_eq]

/-! ## Suppressor: output length bounds -/

/-- Claim C7 counterexample: with max_output_size = 0 and one positive-area
box, nms still returns one index, exceeding min(N, maxOutputs) = 0: the budget
is only checked after a selection is appended. -/
theorem nms_max_output_zero_violation :
    nms [⟨0, 0, 1, 1⟩] [1] (1/2) (some 0) = Except.ok [0] ∧
    ¬ (([0] : List ℕ).length ≤ min ([⟨(0:ℚ), 0, 1, 1⟩] : List Box).length 0) := by
  constructor
  · with_unfolding_all rfl
  · simp

/-- Claim C7 (amended): whenever nms succeeds with a max-output budget of at
least 1, the returned index sequence has length at most min(N, maxOutputs),
and an unset maxOutputs equals the internal setting N+1, hence is effectively
unbounded; a budget of 0 is the one exception, since the first selection is
appended before the budget check. -/
theorem nms_length_bound (boxes : List Box) (scores : List ℚ) (thr : ℚ) (m : ℕ)
    (out : List ℕ) (hm : 1 ≤ m) (h : nms boxes scores thr (some m) = Except.ok out) :
    out.length ≤ min scores.length m ∧
      nms boxes scores thr none = nms boxes scores thr (some (scores.length + 1)) := by
  refine ⟨?_, rfl⟩
  unfold nms at h
  by_cases h1 : boxes.length ≠ scores.length
  · rw [if_pos h1] at h
    cases h
  · rw [if_neg h1] at h
    by_cases h2 : scores = []
    · rw [if_pos h2] at h
      rw [Except.ok.injEq] at h
      subst h
      simp only [List.length_nil]
      exact Nat.zero_le _
    · rw [if_neg h2] at h
      by_cases h3 : ¬ (∀ b ∈ boxes, 0 < area b)
      · rw [if_pos h3] at h
        cases h
      · rw [if_neg h3] at h
        rw [Except.ok.injEq] at h
        subst h
        have ha := nmsLoop_length_le boxes thr ((some m).getD (scores.length + 1))
          scores.length (sortIdxDesc scores) 0
        have hb := nmsLoop_length_le_budget boxes thr ((some m).getD (scores.length + 1))
          scores.length (sortIdxDesc scores) 0 (by simpa using hm)
        rw [sortIdxDesc_length] at ha
        simp only [Option.getD_some] at ha hb ⊢
        omega

/-- Witness for C7 (amended) at one box, score 1 and budget 1. -/
theorem nms_length_bound_witness :
    ([0] : List ℕ).length ≤ min ([(1:ℚ)] : List ℚ).length 1 ∧
      nms [⟨0, 0, 1, 1⟩] [(1:ℚ)] (1/2) none = nms [⟨0, 0, 1, 1⟩] [(1:ℚ)] (1/2) (some 2) :=
  nms_length_bound [⟨0, 0, 1, 1⟩] [(1:ℚ)] (1/2) 1 [0] le_rfl (by with_unfolding_all rfl)

/-! ## Suppressor: threshold monotonicity -/

/-- Claim C3 counterexample: four positive-area boxes and descending scores on
which lowering the threshold from 1/2 to 1/10 grows the selection from
[0, 1] to [0, 2, 3] — the number of selected indices is not monotone in the
threshold. -/
theorem nms_threshold_count_not_monotone :
    ((1:ℚ)/10 ≤ 1/2) ∧
    nms [⟨3/2, 0, 7/2, 2⟩, ⟨0, 0, 2, 2⟩, ⟨0, 0, 2, 1⟩, ⟨0, 1, 2, 2⟩] [4, 3, 2, 1] (1/10) none
      = Except.ok [0, 2, 3] ∧
    nms [⟨3/2, 0, 7/2, 2⟩, ⟨0, 0, 2, 2⟩, ⟨0, 0, 2, 1⟩, ⟨0, 1, 2, 2⟩] [4, 3, 2, 1] (1/2) none
      = Except.ok [0, 1] ∧
    ¬ (([0, 2, 3] : List ℕ).length ≤ ([0, 1] : List ℕ).length) := by
  refine ⟨by norm_num, ?_, ?_, by simp⟩
  · with_unfolding_all rfl
  · with_unfolding_all rfl

/-- Claim C3 (amended): decreasing the threshold never increases the number of
candidates surviving any single suppression round — the per-round keep-filter
is pointwise monotone in the threshold — but the length of the full selected
sequence is not monotone in the threshold. -/
theorem nms_keep_step_monotone (boxes : List Box) (t1 t2 : ℚ) (idx : ℕ) (rest : List ℕ)
    (h : t1 ≤ t2) : (nmsKeep boxes t1 idx rest).length ≤ (nmsKeep boxes t2 idx rest).length := by
  unfold nmsKeep
  refine List.Sublist.length_le (List.monotone_filter_right rest ?_)
  intro a ha
  simp only [decide_eq_true_eq] at ha ⊢
  exact lt_of_lt_of_le ha h

/-- Witness for C3 (amended) at a concrete pair of thresholds. -/
theorem nms_keep_step_monotone_witness :
    (nmsKeep [⟨0, 0, 1, 1⟩, ⟨0, 0, 1, 1⟩] (1/10) 0 [1]).length ≤
      (nmsKeep [⟨0, 0, 1, 1⟩, ⟨0, 0, 1, 1⟩] (1/2) 0 [1]).length :=
  nms_keep_step_monotone [⟨0, 0, 1, 1⟩, ⟨0, 0, 1, 1⟩] (1/10) (1/2) 0 [1] (by norm_num)

/-! ## Suppressor: the selected set is pairwise below threshold -/

/-- The intersection area is symmetric in its two boxes. -/
theorem insArea_comm (p q : Box) : insArea p q = insArea q p := by
  unfold insArea clamp0
  rw [min_comm p.x2, max_comm p.x1, min_comm p.y2, max_comm p.y1]

/-- The loop's pairwise iou is symmetric. -/
theorem pairIou_comm (p q : Box) : pairIou p q = pairIou q p := by
  unfold pairIou
  rw [insArea_comm, add_comm (area p)]

/-- The iou computed inside the nms loop coincides with the generic iou. -/
theorem pairIou_eq_iou (p q : Box) : pairIou p q = iou p q := by
  have hden : area p + area q - insArea p q = iouDen p q := by
    unfold area iouDen
    ring
  unfold pairIou iou
  rw [hden]

/-- Claim C10: for positive-area boxes with distinct scores and no max-output
limit, any two distinct indices selected by nms refer to boxes whose pairwise
iou is strictly below the threshold. -/
theorem nms_selected_pairwise_iou_lt (boxes : List Box) (scores : List ℚ) (thr : ℚ)
    (out : List ℕ) (hpos : ∀ b ∈ boxes, 0 < area b) (hnd : scores.Nodup)
    (h : nms boxes scores thr none = Except.ok out) :
    ∀ x ∈ out, ∀ y ∈ out, x ≠ y →
      iou (boxes.getD x default) (boxes.getD y default) < thr := by
  have hsym : Symmetric (fun x y => pairIou (boxes.getD x default) (boxes.getD y default) < thr) := by
    intro a b hab
    rwa [pairIou_comm] at hab
  have hpw : out.Pairwise
      (fun x y => pairIou (boxes.getD x default) (boxes.getD y default) < thr) := by
    unfold nms at h
    by_cases h1 : boxes.length ≠ scores.length
    · rw [if_pos h1] at h
      cases h
    · rw [if_neg h1] at h
      by_cases h2 : scores = []
      · rw [if_pos h2] at h
        rw [Except.ok.injEq] at h
        subst h
        exact List.Pairwise.nil
      · rw [if_neg h2] at h
        by_cases h3 : ¬ (∀ b ∈ boxes, 0 < area b)
        · rw [if_pos h3] at h
          cases h
        · rw [if_neg h3] at h
          rw [Except.ok.injEq] at h
          subst h
          exact nmsLoop_pairwise boxes thr _ _ _ _
  intro x hx y hy hxy
  have := hpw.forall hsym hx hy hxy
  rwa [pairIou_eq_iou] at this

/-- Witness for C10 at two disjoint boxes with distinct scores. -/
theorem nms_selected_pairwise_iou_lt_witness :
    iou (([⟨0, 0, 1, 1⟩, ⟨5, 5, 6, 6⟩] : List Box).getD 0 default)
      (([⟨0, 0, 1, 1⟩, ⟨5, 5, 6, 6⟩] : List Box).getD 1 default) < 1/2 := by
  have h := nms_selected_pairwise_iou_lt [⟨0, 0, 1, 1⟩, ⟨5, 5, 6, 6⟩] [2, 1] (1/2) [0, 1]
    (by
      intro b hb
      rcases List.mem_cons.mp hb with hh | hh
      · rw [hh]
        norm_num [area]
      · rw [List.mem_singleton.mp hh]
        norm_num [area])
    (by norm_num)
    (by with_unfolding_all rfl)
  exact h 0 (by simp) 1 (by simp) (by simp)

end YOLOv3
